import Mathlib

/-!
Shallow embedding of the shazir audio-fingerprinting core
(`src/shazam_ir/helpers.py`, `src/shazir/fingerprinting.py`,
`src/shazir/preprocess.py`) and proofs about it.

Python floats are embedded as exact rationals (ℚ): the operations the
code performs on them (addition, subtraction, comparison) agree with
IEEE floats on the small exactly-representable values used in the
concrete scenarios.  Python dicts are embedded as insertion-ordered
association lists with update-in-place semantics.
-/

namespace Shazir

/-! ## Python dict model (insertion-ordered association lists) -/

/-- Assign `d[k] = v` in a Python dict: if `k` is present its value is
replaced in place, otherwise `(k, v)` is appended at the end. -/
def dictInsert {α β : Type} [DecidableEq α] : List (α × β) → α → β → List (α × β)
  | [], k, v => [(k, v)]
  | (k₀, v₀) :: rest, k, v =>
    if k₀ = k then (k, v) :: rest else (k₀, v₀) :: dictInsert rest k v

/-- Read `d[k]` from a Python dict, `none` when the key is absent
(a `KeyError` in Python). -/
def dictGet {α β : Type} [DecidableEq α] : List (α × β) → α → Option β
  | [], _ => none
  | (k₀, v₀) :: rest, k => if k₀ = k then some v₀ else dictGet rest k

/-- The keys of a Python dict, in insertion order. -/
def dictKeys {α β : Type} (d : List (α × β)) : List α := d.map Prod.fst

/-! ## Hash generator (`make_combinatorial_hashes`, helpers.py lines 67-108) -/

/-- The record appended to `hash_list` for an anchor `(ta, fa)` and a
target `(t, f)`: `[t[0], anchor_freq[0], f[0], t[0] - anchor_time[0]]`,
i.e. the time of the target, the frequency of the anchor, the frequency of the target
and the time difference — with no rounding applied to any component. -/
def mkHash (ta fa t f : ℚ) : List ℚ := [t, fa, f, t - ta]

/-- The candidate-target test of `pairs_from_anchor_point`
(helpers.py lines 92 and 94): `t > start_time and t < start_time +
delta_time` then `f > start_freq and f < start_freq + delta_freq`,
where `start_time = anchor_time + offset_time` and
`start_freq = anchor_freq + offset_freq`. -/
def inTargetZone (offset_time offset_freq delta_time delta_freq ta fa t f : ℚ) : Bool :=
  let start_time := ta + offset_time
  let start_freq := fa + offset_freq
  (decide (start_time < t) && decide (t < start_time + delta_time)) &&
    (decide (start_freq < f) && decide (f < start_freq + delta_freq))

/-- The constant `fan_out = 10` set inside `make_combinatorial_hashes`
(helpers.py line 102). -/
def fan_out : ℕ := 10

/-- The loop body of `pairs_from_anchor_point` (helpers.py lines 90-99):
walk the zipped peak lists keeping the running pair count `nPairs`;
append a record for each candidate target while `nPairs < fan_out`,
and `break` on the first candidate found once the cap is reached. -/
def pairsAux (offset_time offset_freq delta_time delta_freq ta fa : ℚ) :
    List (ℚ × ℚ) → ℕ → List (List ℚ)
  | [], _ => []
  | (t, f) :: rest, nPairs =>
    if inTargetZone offset_time offset_freq delta_time delta_freq ta fa t f then
      if nPairs < fan_out then
        mkHash ta fa t f :: pairsAux offset_time offset_freq delta_time delta_freq ta fa rest (nPairs + 1)
      else []
    else pairsAux offset_time offset_freq delta_time delta_freq ta fa rest nPairs

/-- `pairs_from_anchor_point(anchor_time, anchor_freq)` (helpers.py
lines 85-100): scan `peaks_times` paired index-wise with
`peaks_frequencies` (the manual `i` counter) starting with `nPairs = 0`. -/
def pairs_from_anchor_point (peaks_times peaks_frequencies : List ℚ)
    (offset_time offset_freq delta_time delta_freq ta fa : ℚ) : List (List ℚ) :=
  pairsAux offset_time offset_freq delta_time delta_freq ta fa
    (peaks_times.zip peaks_frequencies) 0

/-- `make_combinatorial_hashes` (helpers.py lines 67-108): for each
anchor `(anchor_time, anchor_freq)` in `zip(peaks_times,
peaks_frequencies)`, run `pairs_from_anchor_point`, accumulating all
records into one `hash_list`. -/
def make_combinatorial_hashes (peaks_times peaks_frequencies : List ℚ)
    (offset_time offset_freq delta_time delta_freq : ℚ) : List (List ℚ) :=
  (peaks_times.zip peaks_frequencies).flatMap fun af =>
    pairs_from_anchor_point peaks_times peaks_frequencies
      offset_time offset_freq delta_time delta_freq af.1 af.2

/-! ## Peak extractor (`make_peaks_constellation`, helpers.py lines 38-64) -/

/-- Amplitude of grid cell `(i, j)` (row `i` = frequency bin, column
`j` = time bin), defaulting to 0 outside the grid. -/
def gridGet (amps : List (List ℚ)) (i j : ℕ) : ℚ := (amps.getD i []).getD j 0

/-- All grid coordinates `(i, j)` with `i < F`, `j < T`, listed column
by column (ascending time bin `j`, within a column ascending frequency
bin `i`). -/
def allCoords (F T : ℕ) : List (ℕ × ℕ) :=
  (List.range T).flatMap fun j => (List.range F).map fun i => (i, j)

/-- The 8-connected neighbourhood of `(i, j)` clipped to the `F × T`
grid: the in-bounds points other than `(i, j)` whose row and column
each differ from `(i, j)` by at most 1. -/
def neighbors (F T i j : ℕ) : List (ℕ × ℕ) :=
  (allCoords F T).filter fun p =>
    decide (¬(p.1 = i ∧ p.2 = j)) &&
      decide (((p.1 : ℤ) - (i : ℤ)).natAbs ≤ 1) &&
      decide (((p.2 : ℤ) - (j : ℤ)).natAbs ≤ 1)

/-- Modelled from the spec: `skimage.feature.peak_local_max`, called by
`make_peaks_constellation` (helpers.py line 57), is third-party code
absent from the sources of this repository.  Per the spec, `(i, j)` is a
peak iff its amplitude is ≥ the threshold and it is a strict local
maximum over its 8-connected neighbourhood, with the comparison window
clipped at grid borders (border points stay eligible). -/
def isPeak (amps : List (List ℚ)) (amp_thresh : ℚ) (i j : ℕ) : Bool :=
  decide (amp_thresh ≤ gridGet amps i j) &&
    (neighbors amps.length (amps.headD []).length i j).all fun p =>
      decide (gridGet amps p.1 p.2 < gridGet amps i j)

/-- Modelled from the spec: the coordinate list returned by
`peak_local_max` — every grid point passing `isPeak`, ordered so that
the resulting constellation map is sorted by ascending time bin with
ties broken by ascending frequency bin, as the ConstellationMap
ordering of the spec requires. -/
def peak_local_max (amps : List (List ℚ)) (amp_thresh : ℚ) : List (ℕ × ℕ) :=
  (allCoords amps.length (amps.headD []).length).filter fun p =>
    isPeak amps amp_thresh p.1 p.2

/-- `make_peaks_constellation` (helpers.py lines 38-64): run
`peak_local_max`, split the coordinate rows into `i` (frequency index)
and `j` (time index), and return `(times[j], frequencies[i])`. -/
def make_peaks_constellation (times frequencies : List ℚ)
    (amps : List (List ℚ)) (amp_thresh : ℚ) : List ℚ × List ℚ :=
  let peaks := peak_local_max amps amp_thresh
  (peaks.map fun p => times.getD p.2 0, peaks.map fun p => frequencies.getD p.1 0)

/-! ## Fingerprinting pipeline (`fingerprinting.py`) -/

/-- The values a Python positional argument can carry here: a float or
a 1-D float array. -/
inductive PyVal where
  | num (q : ℚ)
  | arr (l : List ℚ)
deriving DecidableEq

/-- Python positional-call semantics: applying a function whose `def`
declares `arity` parameters (and no defaults beyond them) to a list of
positional arguments raises `TypeError` unless the counts match. -/
def callPositional {α : Type} (arity : ℕ) (impl : List PyVal → α)
    (args : List PyVal) : Except String α :=
  if args.length = arity then .ok (impl args) else .error "TypeError"

/-- `make_combinatorial_hashes` as a Python callable: six declared
parameters (helpers.py lines 67-68). -/
def make_combinatorial_hashes_impl : List PyVal → List (List ℚ)
  | [.arr pts, .arr pfs, .num ot, .num ofr, .num dt, .num df] =>
    make_combinatorial_hashes pts pfs ot ofr dt df
  | _ => []

/-- `make_fingerprint` (fingerprinting.py lines 3-35).  The call to
`process_audio_file` is an external collaborator (librosa); its
outputs `times`, `frequencies`, `amplitudes` are taken as inputs here.
The body then extracts peaks and calls `make_combinatorial_hashes`
with SEVEN positional arguments (fingerprinting.py lines 30-32),
including `fan_out`, against a six-parameter signature. -/
def make_fingerprint (times frequencies : List ℚ) (amps : List (List ℚ))
    (amp_thresh offset_time offset_freq delta_time delta_freq fan_out_arg : ℚ) :
    Except String (List (List ℚ)) :=
  let peaks := make_peaks_constellation times frequencies amps amp_thresh
  callPositional 6 make_combinatorial_hashes_impl
    [.arr peaks.1, .arr peaks.2, .num offset_time, .num offset_freq,
     .num delta_time, .num delta_freq, .num fan_out_arg]

/-- One iteration of the database-update loop of
`fingerprint_track_and_add_to_database` (fingerprinting.py lines
41-45): try `fingerprints_db[h][track_id] = fingerprints_dict[h]`; on
`KeyError` (hash `h` unseen) set `fingerprints_db[h] = {track_id:
fingerprints_dict[h]}`. -/
def dbStep {β : Type} (track_id : String)
    (db : List (List ℚ × List (String × β))) (hv : List ℚ × β) :
    List (List ℚ × List (String × β)) :=
  match dictGet db hv.1 with
  | some inner => dictInsert db hv.1 (dictInsert inner track_id hv.2)
  | none => db ++ [(hv.1, [(track_id, hv.2)])]

/-- The database-update loop of `fingerprint_track_and_add_to_database`
(fingerprinting.py lines 41-45), iterating `dbStep` over the hashes of
the fingerprint dict in insertion order. -/
def add_to_database {β : Type} (fingerprints_dict : List (List ℚ × β))
    (track_id : String) (fingerprints_db : List (List ℚ × List (String × β))) :
    List (List ℚ × List (String × β)) :=
  fingerprints_dict.foldl (dbStep track_id) fingerprints_db

/-- `fingerprint_track_and_add_to_database` (fingerprinting.py lines
37-46): call `make_fingerprint` with its default tuning parameters
(`amp_thresh=0.8, offset_time=1, offset_freq=500, delta_time=10,
delta_freq=1000, fan_out=10`), then run the database-update loop.  Were
`make_fingerprint` ever to return, its result would be a list, and
`fingerprints_dict.keys()` on a list raises `AttributeError`. -/
def fingerprint_track_and_add_to_database (times frequencies : List ℚ)
    (amps : List (List ℚ)) (_track_id : String)
    (_fingerprints_db : List (List ℚ × List (String × ℚ))) :
    Except String (List (List ℚ × List (String × ℚ))) :=
  match make_fingerprint times frequencies amps (8/10) 1 500 10 1000 10 with
  | .error e => .error e
  | .ok _fingerprints_dict => .error "AttributeError"

/-- `fingerprint_recording` (fingerprinting.py lines 49-54): call
`make_fingerprint` with `amp_thresh = 35` and the remaining defaults. -/
def fingerprint_recording (times frequencies : List ℚ) (amps : List (List ℚ)) :
    Except String (List (List ℚ)) :=
  make_fingerprint times frequencies amps 35 1 500 10 1000 10

/-- The shape of `fingerprints_db`: a Python dict from hash to an inner
dict from track id to the stored payload. -/
abbrev Db (β : Type) := List (List ℚ × List (String × β))

/-- Reading `fingerprints_db[h][track_id]`: the payload the database
currently holds for hash `h` and track `track_id`, if any. -/
def lookup_track {β : Type} (db : Db β) (h : List ℚ) (track_id : String) : Option β :=
  match dictGet db h with
  | some inner => dictGet inner track_id
  | none => none

/-! ## Dict lemmas -/

theorem dictGet_dictInsert_self {α β : Type} [DecidableEq α]
    (l : List (α × β)) (k : α) (v : β) : dictGet (dictInsert l k v) k = some v := by
  induction l with
  | nil => simp [dictInsert, dictGet]
  | cons kv rest ih =>
    by_cases hk : kv.1 = k
    · simp [dictInsert, dictGet, hk]
    · simpa [dictInsert, dictGet, hk] using ih

theorem dictGet_dictInsert_ne {α β : Type} [DecidableEq α]
    (l : List (α × β)) (k k' : α) (v : β) (hk : k' ≠ k) :
    dictGet (dictInsert l k v) k' = dictGet l k' := by
  induction l with
  | nil => simp [dictInsert, dictGet, Ne.symm hk]
  | cons kv rest ih =>
    obtain ⟨k₀, v₀⟩ := kv
    by_cases hk0 : k₀ = k
    · subst hk0
      simp [dictInsert, dictGet, Ne.symm hk]
    · by_cases hk1 : k₀ = k'
      · simp [dictInsert, dictGet, hk0, hk1, hk]
      · simp [dictInsert, dictGet, hk0, hk1, ih]

theorem dictGet_append_of_none {α β : Type} [DecidableEq α]
    (l l' : List (α × β)) (k : α) (hnone : dictGet l k = none) :
    dictGet (l ++ l') k = dictGet l' k := by
  induction l with
  | nil => simp
  | cons kv rest ih =>
    obtain ⟨k₀, v₀⟩ := kv
    by_cases hk : k₀ = k
    · simp [dictGet, hk] at hnone
    · simp only [dictGet, if_neg hk] at hnone
      simpa [dictGet, hk] using ih hnone

theorem dictGet_append_single_ne {α β : Type} [DecidableEq α]
    (l : List (α × β)) (k k' : α) (v : β) (hk : k' ≠ k) :
    dictGet (l ++ [(k, v)]) k' = dictGet l k' := by
  induction l with
  | nil => simp [dictGet, Ne.symm hk]
  | cons kv rest ih =>
    obtain ⟨k₀, v₀⟩ := kv
    by_cases hk0 : k₀ = k'
    · simp [dictGet, hk0]
    · simpa [dictGet, hk0] using ih

/-! ## Hash generator lemmas -/

theorem pairsAux_eq (offset_time offset_freq delta_time delta_freq ta fa : ℚ)
    (l : List (ℚ × ℚ)) (n : ℕ) :
    pairsAux offset_time offset_freq delta_time delta_freq ta fa l n =
      ((l.filter fun tf =>
          inTargetZone offset_time offset_freq delta_time delta_freq ta fa tf.1 tf.2).take
        (fan_out - n)).map fun tf => mkHash ta fa tf.1 tf.2 := by
  induction l generalizing n with
  | nil => simp [pairsAux]
  | cons tf rest ih =>
    obtain ⟨t, f⟩ := tf
    by_cases hz : inTargetZone offset_time offset_freq delta_time delta_freq ta fa t f
    · by_cases hn : n < fan_out
      · have hsub : fan_out - n = (fan_out - (n + 1)) + 1 := by omega
        simp [pairsAux, hz, hn, ih, hsub]
      · have hsub : fan_out - n = 0 := by omega
        simp [pairsAux, hz, hn, hsub]
    · simp [pairsAux, hz, ih]

/-- C4: for every anchor and every constellation, `pairs_from_anchor_point`
emits exactly the first at-most-`fan_out` landmarks of the target
rectangle taken in constellation-map order (a cap, not a top-K), so in
particular it emits at most `fan_out` hash records per anchor. -/
theorem fan_out_bound (peaks_times peaks_frequencies : List ℚ)
    (offset_time offset_freq delta_time delta_freq ta fa : ℚ) :
    pairs_from_anchor_point peaks_times peaks_frequencies
        offset_time offset_freq delta_time delta_freq ta fa =
      (((peaks_times.zip peaks_frequencies).filter fun tf =>
          inTargetZone offset_time offset_freq delta_time delta_freq ta fa tf.1 tf.2).take
        fan_out).map (fun tf => mkHash ta fa tf.1 tf.2) ∧
    (pairs_from_anchor_point peaks_times peaks_frequencies
        offset_time offset_freq delta_time delta_freq ta fa).length ≤ fan_out := by
  have heq := pairsAux_eq offset_time offset_freq delta_time delta_freq ta fa
    (peaks_times.zip peaks_frequencies) 0
  refine ⟨by simpa [pairs_from_anchor_point] using heq, ?_⟩
  rw [pairs_from_anchor_point, heq]
  simp

/-- C5: a landmark `(t, f)` is a candidate target for the anchor
`(ta, fa)` exactly when `ta + offset_time < t < ta + offset_time +
delta_time` and `fa + offset_freq < f < fa + offset_freq + delta_freq`,
all four bounds strict, so boundary landmarks are excluded. -/
theorem target_zone_strict_bounds
    (offset_time offset_freq delta_time delta_freq ta fa t f : ℚ) :
    inTargetZone offset_time offset_freq delta_time delta_freq ta fa t f = true ↔
      (ta + offset_time < t ∧ t < ta + offset_time + delta_time ∧
        fa + offset_freq < f ∧ f < fa + offset_freq + delta_freq) := by
  simp [inTargetZone, and_assoc]

/-- Witness for C5: the landmark `(3, 1500)` lies strictly inside the
target zone of the anchor `(1, 1000)` for `offset_time=0.5,
offset_freq=0, delta_time=5, delta_freq=1000`. -/
theorem target_zone_strict_bounds_witness :
    inTargetZone (1/2) 0 5 1000 1 1000 3 1500 = true :=
  (target_zone_strict_bounds (1/2) 0 5 1000 1 1000 3 1500).mpr (by norm_num)

/-- The concrete scenario of the spec, evaluated on the embedded code:
landmarks `(t=1.0s, f=1000Hz)` and `(t=3.0s, f=1500Hz)` with
`offset_time=0.5, offset_freq=0, delta_time=5, delta_freq=1000`
produce exactly one hash record, `[3, 1000, 1500, 2]`. -/
theorem concrete_scenario_eval :
    make_combinatorial_hashes [1, 3] [1000, 1500] (1/2) 0 5 1000 =
      [[3, 1000, 1500, 2]] := by
  norm_num [make_combinatorial_hashes, pairs_from_anchor_point, pairsAux,
    inTargetZone, mkHash, fan_out]

/-- C3 counterexample: in the concrete scenario of the spec the single
record the code emits is `[3, 1000, 1500, 2]` — its stored time
component (position 0) is the time `3.0` of the target, not the time
`1.0` of the anchor that the claim requires as the `anchor_time` payload. -/
theorem anchor_time_payload_counterexample :
    make_combinatorial_hashes [1, 3] [1000, 1500] (1/2) 0 5 1000 =
      [[3, 1000, 1500, 2]] ∧
    ((make_combinatorial_hashes [1, 3] [1000, 1500] (1/2) 0 5 1000).getD 0 []).getD 0 0
      ≠ (1 : ℚ) := by
  refine ⟨concrete_scenario_eval, ?_⟩
  rw [concrete_scenario_eval]
  norm_num

/-- C3 amended: every record `make_combinatorial_hashes` emits is
`[T.time, A.frequency, T.frequency, T.time − A.time]` for some anchor
`A` and some target `T` of the target zone of `A` — the stored time
payload is the time of the TARGET, not of the anchor — and in the concrete
scenario the single record emitted is `[3, 1000, 1500, 2]`. -/
theorem hash_entries_store_target_time :
    (make_combinatorial_hashes [1, 3] [1000, 1500] (1/2) 0 5 1000 =
      [[3, 1000, 1500, 2]]) ∧
    ∀ (peaks_times peaks_frequencies : List ℚ)
      (offset_time offset_freq delta_time delta_freq : ℚ) (e : List ℚ),
      e ∈ make_combinatorial_hashes peaks_times peaks_frequencies
            offset_time offset_freq delta_time delta_freq →
      ∃ ta fa t f, (ta, fa) ∈ peaks_times.zip peaks_frequencies ∧
        (t, f) ∈ peaks_times.zip peaks_frequencies ∧
        inTargetZone offset_time offset_freq delta_time delta_freq ta fa t f = true ∧
        e = [t, fa, f, t - ta] := by
  refine ⟨concrete_scenario_eval, ?_⟩
  intro pts pfs ot ofr dt df e he
  rw [make_combinatorial_hashes, List.mem_flatMap] at he
  obtain ⟨af, haf, he⟩ := he
  rw [pairs_from_anchor_point,
    pairsAux_eq ot ofr dt df af.1 af.2 (pts.zip pfs) 0] at he
  obtain ⟨tf, htf, rfl⟩ := List.mem_map.mp he
  have htf' := List.mem_filter.mp (List.mem_of_mem_take htf)
  exact ⟨af.1, af.2, tf.1, tf.2, by simpa using haf, by simpa using htf'.1,
    htf'.2, rfl⟩

/-- Witness for C3 amended: the record of the concrete scenario, with
the membership hypothesis discharged on that scenario. -/
theorem hash_entries_store_target_time_witness :
    ([(3 : ℚ), 1000, 1500, 2] ∈
      make_combinatorial_hashes [1, 3] [1000, 1500] (1/2) 0 5 1000) ∧
    ∃ ta fa t f, (ta, fa) ∈ ([1, 3] : List ℚ).zip ([1000, 1500] : List ℚ) ∧
      (t, f) ∈ ([1, 3] : List ℚ).zip ([1000, 1500] : List ℚ) ∧
      inTargetZone (1/2) 0 5 1000 ta fa t f = true ∧
      ([(3 : ℚ), 1000, 1500, 2] : List ℚ) = [t, fa, f, t - ta] :=
  ⟨by rw [concrete_scenario_eval]; simp,
    hash_entries_store_target_time.2 [1, 3] [1000, 1500] (1/2) 0 5 1000
      [3, 1000, 1500, 2] (by rw [concrete_scenario_eval]; simp)⟩

/-- The perturbed variant of the concrete scenario: the same landmark
pair with both frequencies shifted by a quarter of a Hz. -/
theorem perturbed_scenario_eval :
    make_combinatorial_hashes [1, 3] [4001/4, 6001/4] (1/2) 0 5 1000 =
      [[3, 4001/4, 6001/4, 2]] := by
  norm_num [make_combinatorial_hashes, pairs_from_anchor_point, pairsAux,
    inTargetZone, mkHash, fan_out]

/-- C1 counterexample: the hash generator performs no quantization.
The landmark pairs `((1, 1000.25), (3, 1500.25))` and
`((1, 1000), (3, 1500))` agree after rounding the frequencies to
integer Hz and the delta time to integer milliseconds, yet the emitted
hash records differ, and the emitted anchor-frequency component
`1000.25` does not lie on the integer-Hz grid. -/
theorem hash_not_quantized_counterexample :
    make_combinatorial_hashes [1, 3] [4001/4, 6001/4] (1/2) 0 5 1000 =
      [[3, 4001/4, 6001/4, 2]] ∧
    make_combinatorial_hashes [1, 3] [1000, 1500] (1/2) 0 5 1000 =
      [[3, 1000, 1500, 2]] ∧
    round ((4001 : ℚ)/4) = round ((1000 : ℚ)) ∧
    round ((6001 : ℚ)/4) = round ((1500 : ℚ)) ∧
    ((round ((4001 : ℚ)/4) : ℤ) : ℚ) ≠ (4001 : ℚ)/4 ∧
    make_combinatorial_hashes [1, 3] [4001/4, 6001/4] (1/2) 0 5 1000 ≠
      make_combinatorial_hashes [1, 3] [1000, 1500] (1/2) 0 5 1000 := by
  refine ⟨perturbed_scenario_eval, concrete_scenario_eval, ?_, ?_, ?_, ?_⟩
  · rw [round_eq, round_eq]; norm_num [Int.floor_eq_iff]
  · rw [round_eq, round_eq]; norm_num [Int.floor_eq_iff]
  · rw [round_eq]; norm_num [Int.floor_eq_iff]
  · rw [perturbed_scenario_eval, concrete_scenario_eval]
    norm_num

/-- C1 amended: no quantization is applied — each emitted record
stores the raw coordinates `[T.time, A.frequency, T.frequency,
T.time − A.time]`, and two records coincide exactly when those raw
values coincide, so agreement after rounding to a fixed grid does not
make the keys equal. -/
theorem hashes_store_raw_coordinates :
    (∀ ta fa t f ta' fa' t' f' : ℚ,
      mkHash ta fa t f = mkHash ta' fa' t' f' ↔
        (t = t' ∧ fa = fa' ∧ f = f' ∧ t - ta = t' - ta')) ∧
    make_combinatorial_hashes [1, 3] [4001/4, 6001/4] (1/2) 0 5 1000 =
      [mkHash 1 (4001/4) 3 (6001/4)] := by
  constructor
  · intro ta fa t f ta' fa' t' f'
    simp [mkHash]
  · rw [perturbed_scenario_eval]
    norm_num [mkHash]

/-! ## Fingerprint-database lemmas -/

theorem lookup_track_congr {β : Type} (db db' : Db β) (h : List ℚ) (tid : String)
    (hget : dictGet db h = dictGet db' h) :
    lookup_track db h tid = lookup_track db' h tid := by
  rw [lookup_track, lookup_track, hget]

theorem dbStep_dictGet_ne {β : Type} (tid : String) (db : Db β)
    (hv : List ℚ × β) (h' : List ℚ) (hne : h' ≠ hv.1) :
    dictGet (dbStep tid db hv) h' = dictGet db h' := by
  rw [dbStep]
  cases hget : dictGet db hv.1 with
  | some inner => exact dictGet_dictInsert_ne db hv.1 h' _ hne
  | none => exact dictGet_append_single_ne db hv.1 h' _ hne

theorem dbStep_lookup_self {β : Type} (tid : String) (db : Db β)
    (hv : List ℚ × β) : lookup_track (dbStep tid db hv) hv.1 tid = some hv.2 := by
  rw [dbStep]
  cases hget : dictGet db hv.1 with
  | some inner =>
    rw [lookup_track, dictGet_dictInsert_self]
    simp [dictGet_dictInsert_self]
  | none =>
    rw [lookup_track, dictGet_append_of_none db _ _ hget]
    simp [dictGet]

theorem dbStep_lookup_ne_track {β : Type} (tid : String) (db : Db β)
    (hv : List ℚ × β) (h : List ℚ) (tid' : String) (hne : tid' ≠ tid) :
    lookup_track (dbStep tid db hv) h tid' = lookup_track db h tid' := by
  by_cases hh : h = hv.1
  · subst hh
    cases hget : dictGet db hv.1 with
    | some inner =>
      simp only [dbStep, hget, lookup_track, dictGet_dictInsert_self]
      rw [dictGet_dictInsert_ne inner tid tid' _ hne]
    | none =>
      simp only [dbStep, hget, lookup_track,
        dictGet_append_of_none db _ _ hget]
      simp [dictGet, Ne.symm hne]
  · exact lookup_track_congr _ _ _ _ (dbStep_dictGet_ne tid db hv h hh)

theorem add_to_database_dictGet_not_mem {β : Type}
    (d : List (List ℚ × β)) (tid : String) :
    ∀ (db : Db β) (h : List ℚ), h ∉ dictKeys d →
      dictGet (add_to_database d tid db) h = dictGet db h := by
  induction d with
  | nil => intro db h _; rfl
  | cons a rest ih =>
    intro db h hh
    simp only [dictKeys, List.map_cons, List.mem_cons, not_or] at hh
    rw [add_to_database, List.foldl_cons]
    rw [show List.foldl (dbStep tid) (dbStep tid db a) rest =
      add_to_database rest tid (dbStep tid db a) from rfl]
    rw [ih _ h (by simpa [dictKeys] using hh.2)]
    exact dbStep_dictGet_ne tid db a h hh.1

theorem add_to_database_lookup_ne_track {β : Type}
    (d : List (List ℚ × β)) (tid : String) :
    ∀ (db : Db β) (h : List ℚ) (tid' : String), tid' ≠ tid →
      lookup_track (add_to_database d tid db) h tid' = lookup_track db h tid' := by
  induction d with
  | nil => intro db h tid' _; rfl
  | cons a rest ih =>
    intro db h tid' hne
    rw [add_to_database, List.foldl_cons]
    rw [show List.foldl (dbStep tid) (dbStep tid db a) rest =
      add_to_database rest tid (dbStep tid db a) from rfl]
    rw [ih (dbStep tid db a) h tid' hne]
    exact dbStep_lookup_ne_track tid db a h tid' hne

theorem add_to_database_lookup_mem {β : Type}
    (d : List (List ℚ × β)) (tid : String) :
    ∀ (db : Db β), (dictKeys d).Nodup → ∀ hv ∈ d,
      lookup_track (add_to_database d tid db) hv.1 tid = some hv.2 := by
  induction d with
  | nil => intro db _ hv hmem; cases hmem
  | cons a rest ih =>
    intro db hnd hv hmem
    have hnd' := List.nodup_cons.mp (show (a.1 :: dictKeys rest).Nodup from hnd)
    rw [add_to_database, List.foldl_cons]
    rw [show List.foldl (dbStep tid) (dbStep tid db a) rest =
      add_to_database rest tid (dbStep tid db a) from rfl]
    rcases List.mem_cons.mp hmem with rfl | hmem'
    · rw [lookup_track_congr _ _ _ _
        (add_to_database_dictGet_not_mem rest tid (dbStep tid db hv) hv.1 hnd'.1)]
      exact dbStep_lookup_self tid db hv
    · exact ih (dbStep tid db a) hnd'.2 hv hmem'

/-- C2 counterexample: ingesting the hash `[1, 2]` for track `"A"`
twice, first with payload `5` and then with payload `7`, leaves the
database holding a single occurrence with payload `7`: the second
ingestion overwrote the first instead of appending it, so "repeated
identical entries from the same track are all stored" and "all
previously ingested entries remain present" are both false. -/
theorem ingest_overwrites_counterexample :
    add_to_database [([1, 2], (7 : ℚ))] "A"
        (add_to_database [([1, 2], (5 : ℚ))] "A" ([] : Db ℚ)) =
      [([1, 2], [("A", 7)])] ∧
    ¬ ("A", (5 : ℚ)) ∈
      (dictGet (add_to_database [([1, 2], (7 : ℚ))] "A"
        (add_to_database [([1, 2], (5 : ℚ))] "A" ([] : Db ℚ))) [1, 2]).getD [] := by
  have h1 : add_to_database [([1, 2], (5 : ℚ))] "A" ([] : Db ℚ) =
      [([1, 2], [("A", 5)])] := by
    simp [add_to_database, dbStep, dictGet]
  have h2 : add_to_database [([1, 2], (7 : ℚ))] "A"
      ([([1, 2], [("A", 5)])] : Db ℚ) = [([1, 2], [("A", 7)])] := by
    simp [add_to_database, dbStep, dictGet, dictInsert]
  rw [h1, h2]
  refine ⟨rfl, ?_⟩
  simp [dictGet]

/-- C2 amended: the ingestion loop stores one payload per
`(hash, track)` pair with overwrite semantics — for a fingerprint dict
with distinct hash keys, each ingested `(hash, payload)` pair is
subsequently retrievable for the ingesting track (a re-ingestion
therefore replaces, rather than duplicates, the old payload); entries
under hashes not being ingested are untouched, so hashes never
ingested stay absent, and entries of other tracks under any hash are
preserved. -/
theorem ingest_overwrite_semantics {β : Type} (d : List (List ℚ × β))
    (tid : String) (db : Db β) :
    (∀ h, h ∉ dictKeys d →
      dictGet (add_to_database d tid db) h = dictGet db h) ∧
    (∀ h tid', tid' ≠ tid →
      lookup_track (add_to_database d tid db) h tid' = lookup_track db h tid') ∧
    ((dictKeys d).Nodup → ∀ hv ∈ d,
      lookup_track (add_to_database d tid db) hv.1 tid = some hv.2) :=
  ⟨fun h hh => add_to_database_dictGet_not_mem d tid db h hh,
    fun h tid' hne => add_to_database_lookup_ne_track d tid db h tid' hne,
    fun hnd hv hmem => add_to_database_lookup_mem d tid db hnd hv hmem⟩

/-- Witness for C2 amended: the overwrite-semantics theorem applied to
a concrete one-entry ingestion, with every hypothesis discharged. -/
theorem ingest_overwrite_semantics_witness :
    (([9] : List ℚ) ∉ dictKeys [([1, 2], (5 : ℚ))] ∧
      dictGet (add_to_database [([1, 2], (5 : ℚ))] "A" ([] : Db ℚ)) [9] =
        dictGet ([] : Db ℚ) [9]) ∧
    ("B" ≠ "A" ∧
      lookup_track (add_to_database [([1, 2], (5 : ℚ))] "A" ([] : Db ℚ)) [1, 2] "B" =
        lookup_track ([] : Db ℚ) [1, 2] "B") ∧
    ((dictKeys [([1, 2], (5 : ℚ))]).Nodup ∧ (([1, 2], (5 : ℚ))) ∈ [([1, 2], (5 : ℚ))] ∧
      lookup_track (add_to_database [([1, 2], (5 : ℚ))] "A" ([] : Db ℚ)) [1, 2] "A" =
        some 5) :=
  ⟨⟨by norm_num [dictKeys],
    (ingest_overwrite_semantics [([1, 2], (5 : ℚ))] "A" ([] : Db ℚ)).1 [9]
      (by norm_num [dictKeys])⟩,
   ⟨by simp,
    (ingest_overwrite_semantics [([1, 2], (5 : ℚ))] "A" ([] : Db ℚ)).2.1 [1, 2] "B"
      (by simp)⟩,
   ⟨by simp [dictKeys], by simp,
    (ingest_overwrite_semantics [([1, 2], (5 : ℚ))] "A" ([] : Db ℚ)).2.2
      (by simp [dictKeys]) ([1, 2], (5 : ℚ)) (by simp)⟩⟩

/-! ## Peak extractor lemmas -/

theorem mem_allCoords (F T : ℕ) (p : ℕ × ℕ) :
    p ∈ allCoords F T ↔ p.1 < F ∧ p.2 < T := by
  obtain ⟨i, j⟩ := p
  simp only [allCoords, List.mem_flatMap, List.mem_map, List.mem_range]
  constructor
  · rintro ⟨j', hj', i', hi', h⟩
    obtain ⟨rfl, rfl⟩ := Prod.mk.injEq .. ▸ h
    exact ⟨hi', hj'⟩
  · rintro ⟨hi, hj⟩
    exact ⟨j, hj, i, hi, rfl⟩

theorem mem_neighbors (F T i j : ℕ) (p : ℕ × ℕ) :
    p ∈ neighbors F T i j ↔
      p.1 < F ∧ p.2 < T ∧ ¬(p.1 = i ∧ p.2 = j) ∧
        ((p.1 : ℤ) - (i : ℤ)).natAbs ≤ 1 ∧ ((p.2 : ℤ) - (j : ℤ)).natAbs ≤ 1 := by
  simp only [neighbors, List.mem_filter, mem_allCoords, Bool.and_eq_true,
    decide_eq_true_eq, and_assoc]

theorem isPeak_iff (amps : List (List ℚ)) (amp_thresh : ℚ) (i j : ℕ) :
    isPeak amps amp_thresh i j = true ↔
      amp_thresh ≤ gridGet amps i j ∧
      ∀ i' j', i' < amps.length → j' < (amps.headD []).length →
        ¬(i' = i ∧ j' = j) →
        ((i' : ℤ) - (i : ℤ)).natAbs ≤ 1 → ((j' : ℤ) - (j : ℤ)).natAbs ≤ 1 →
        gridGet amps i' j' < gridGet amps i j := by
  simp only [isPeak, Bool.and_eq_true, decide_eq_true_eq, List.all_eq_true]
  constructor
  · rintro ⟨hth, hall⟩
    refine ⟨hth, fun i' j' hi' hj' hne hdi hdj => ?_⟩
    have := hall (i', j') ((mem_neighbors _ _ i j (i', j')).mpr
      ⟨hi', hj', hne, hdi, hdj⟩)
    simpa using this
  · rintro ⟨hth, hloc⟩
    refine ⟨hth, fun p hp => ?_⟩
    obtain ⟨hp1, hp2, hp3, hp4, hp5⟩ := (mem_neighbors _ _ i j p).mp hp
    simpa using hloc p.1 p.2 hp1 hp2 hp3 hp4 hp5

theorem mem_peak_local_max (amps : List (List ℚ)) (amp_thresh : ℚ) (p : ℕ × ℕ) :
    p ∈ peak_local_max amps amp_thresh ↔
      p.1 < amps.length ∧ p.2 < (amps.headD []).length ∧
        isPeak amps amp_thresh p.1 p.2 = true := by
  simp [peak_local_max, List.mem_filter, mem_allCoords, and_assoc]

/-- C6 (spec-modelled): a grid point `(i, j)` is returned as a peak iff
it is in bounds, its amplitude is ≥ `amp_thresh`, and it is a strict
local maximum over its 8-connected neighbourhood clipped at the grid
borders — a border point compares only against the neighbours that
exist and remains eligible. -/
theorem peak_iff_local_max (amps : List (List ℚ)) (amp_thresh : ℚ) (i j : ℕ) :
    (i, j) ∈ peak_local_max amps amp_thresh ↔
      i < amps.length ∧ j < (amps.headD []).length ∧
      amp_thresh ≤ gridGet amps i j ∧
      ∀ i' j', i' < amps.length → j' < (amps.headD []).length →
        ¬(i' = i ∧ j' = j) →
        ((i' : ℤ) - (i : ℤ)).natAbs ≤ 1 → ((j' : ℤ) - (j : ℤ)).natAbs ≤ 1 →
        gridGet amps i' j' < gridGet amps i j := by
  rw [mem_peak_local_max, isPeak_iff]

/-- Witness for C6: the single cell of the grid `[[5]]` clears
threshold 3 and is vacuously a strict local maximum, so it is returned
as a peak. -/
theorem peak_iff_local_max_witness :
    ((0, 0) : ℕ × ℕ) ∈ peak_local_max [[(5 : ℚ)]] 3 :=
  (peak_iff_local_max [[(5 : ℚ)]] 3 0 0).mpr
    ⟨by simp, by simp, by norm_num [gridGet], by
      intro i' j' hi' hj' hne _ _
      simp only [List.length_cons, List.length_nil, List.headD_cons] at hi' hj'
      exact absurd ⟨by omega, by omega⟩ hne⟩

theorem isPeak_antitone (amps : List (List ℚ)) (t1 t2 : ℚ) (h12 : t1 ≤ t2)
    (i j : ℕ) (hp : isPeak amps t2 i j = true) : isPeak amps t1 i j = true := by
  rw [isPeak_iff] at hp ⊢
  exact ⟨le_trans h12 hp.1, hp.2⟩

/-- C7 (spec-modelled): raising the amplitude threshold never
increases the number of peaks returned for the same spectrogram. -/
theorem peak_threshold_monotone (times frequencies : List ℚ)
    (amps : List (List ℚ)) (t1 t2 : ℚ) (h12 : t1 ≤ t2) :
    (make_peaks_constellation times frequencies amps t2).1.length ≤
      (make_peaks_constellation times frequencies amps t1).1.length := by
  simp only [make_peaks_constellation, List.length_map]
  exact List.Sublist.length_le
    (List.monotone_filter_right _ fun p hp => isPeak_antitone amps t1 t2 h12 p.1 p.2 hp)

/-- Witness for C7 at a concrete spectrogram: threshold 3 against
threshold 7 on the one-cell grid `[[5]]`. -/
theorem peak_threshold_monotone_witness :
    ((3 : ℚ) ≤ 7) ∧
    (make_peaks_constellation [0] [0] [[5]] 7).1.length ≤
      (make_peaks_constellation [0] [0] [[5]] 3).1.length :=
  ⟨by norm_num, peak_threshold_monotone [0] [0] [[5]] 3 7 (by norm_num)⟩

theorem allCoords_pairwise (F T : ℕ) :
    (allCoords F T).Pairwise (fun p q => p.2 < q.2 ∨ (p.2 = q.2 ∧ p.1 < q.1)) := by
  rw [allCoords, List.pairwise_flatMap]
  constructor
  · intro j _
    rw [List.pairwise_map]
    exact (List.pairwise_lt_range F).imp fun hij => Or.inr ⟨rfl, hij⟩
  · refine (List.pairwise_lt_range T).imp ?_
    intro j1 j2 hj x hx y hy
    obtain ⟨i1, _, rfl⟩ := List.mem_map.mp hx
    obtain ⟨i2, _, rfl⟩ := List.mem_map.mp hy
    exact Or.inl hj

theorem peak_local_max_pairwise (amps : List (List ℚ)) (amp_thresh : ℚ) :
    (peak_local_max amps amp_thresh).Pairwise
      (fun p q => p.2 < q.2 ∨ (p.2 = q.2 ∧ p.1 < q.1)) :=
  List.Pairwise.sublist (List.filter_sublist _)
    (allCoords_pairwise amps.length (amps.headD []).length)

theorem getD_strict_mono (l : List ℚ) (hs : l.Pairwise (· < ·))
    (a b : ℕ) (hab : a < b) (hb : b < l.length) : l.getD a 0 < l.getD b 0 := by
  have ha : a < l.length := lt_trans hab hb
  rw [List.getD_eq_getElem l 0 ha, List.getD_eq_getElem l 0 hb]
  exact List.pairwise_iff_getElem.mp hs a b ha hb hab

/-- C8 (spec-modelled): for a spectrogram whose time and frequency
axes are strictly increasing and at least as long as the amplitude
dimensions of the amplitude grid, the constellation map returned by
`make_peaks_constellation` is ordered by ascending time with ties
broken by ascending frequency. -/
theorem constellation_sorted (times frequencies : List ℚ)
    (amps : List (List ℚ)) (amp_thresh : ℚ)
    (htimes : times.Pairwise (· < ·)) (hfreqs : frequencies.Pairwise (· < ·))
    (hT : (amps.headD []).length ≤ times.length)
    (hF : amps.length ≤ frequencies.length) :
    ((make_peaks_constellation times frequencies amps amp_thresh).1.zip
      (make_peaks_constellation times frequencies amps amp_thresh).2).Pairwise
      (fun a b => a.1 < b.1 ∨ (a.1 = b.1 ∧ a.2 < b.2)) := by
  have hzip : (make_peaks_constellation times frequencies amps amp_thresh).1.zip
      (make_peaks_constellation times frequencies amps amp_thresh).2 =
      (peak_local_max amps amp_thresh).map
        (fun p => (times.getD p.2 0, frequencies.getD p.1 0)) := by
    simp only [make_peaks_constellation]
    exact List.zip_map' _ _ _
  rw [hzip, List.pairwise_map]
  have hcoords := peak_local_max_pairwise amps amp_thresh
  rw [List.pairwise_iff_getElem] at hcoords ⊢
  intro a b ha hb hab
  have h0 := hcoords a b ha hb hab
  have hqmem := (mem_peak_local_max amps amp_thresh _).mp
    (List.getElem_mem hb)
  rcases h0 with hlt | ⟨heq, hlt⟩
  · exact Or.inl (getD_strict_mono times htimes _ _ hlt
      (lt_of_lt_of_le hqmem.2.1 hT))
  · exact Or.inr ⟨by rw [heq], getD_strict_mono frequencies hfreqs _ _ hlt
      (lt_of_lt_of_le hqmem.1 hF)⟩

/-- Witness for C8 on a concrete 2×2 spectrogram with two peaks. -/
theorem constellation_sorted_witness :
    (([0, 1] : List ℚ).Pairwise (· < ·) ∧ ([10, 20] : List ℚ).Pairwise (· < ·) ∧
      (([[5, 1], [0, 3]] : List (List ℚ)).headD []).length ≤ 2 ∧
      ([[5, 1], [0, 3]] : List (List ℚ)).length ≤ 2) ∧
    ((make_peaks_constellation [0, 1] [10, 20] [[5, 1], [0, 3]] 0).1.zip
      (make_peaks_constellation [0, 1] [10, 20] [[5, 1], [0, 3]] 0).2).Pairwise
      (fun a b => a.1 < b.1 ∨ (a.1 = b.1 ∧ a.2 < b.2)) :=
  ⟨⟨by norm_num, by norm_num, by simp, by simp⟩,
    constellation_sorted [0, 1] [10, 20] [[5, 1], [0, 3]] 0
      (by norm_num) (by norm_num) (by simp) (by simp)⟩

/-! ## Determinism and the broken pipeline -/

/-- C9: peak extraction and hash generation are pure functions of
their inputs — two runs on equal inputs and configuration produce
equal outputs; no unordered iteration or randomness enters either. -/
theorem extraction_and_hashing_deterministic
    (times frequencies : List ℚ) (amps : List (List ℚ)) (amp_thresh : ℚ)
    (times' frequencies' : List ℚ) (amps' : List (List ℚ)) (amp_thresh' : ℚ)
    (pts pfs : List ℚ) (ot ofr dt df : ℚ)
    (pts' pfs' : List ℚ) (ot' ofr' dt' df' : ℚ)
    (h1 : times = times') (h2 : frequencies = frequencies') (h3 : amps = amps')
    (h4 : amp_thresh = amp_thresh')
    (h5 : pts = pts') (h6 : pfs = pfs') (h7 : ot = ot') (h8 : ofr = ofr')
    (h9 : dt = dt') (h10 : df = df') :
    make_peaks_constellation times frequencies amps amp_thresh =
      make_peaks_constellation times' frequencies' amps' amp_thresh' ∧
    make_combinatorial_hashes pts pfs ot ofr dt df =
      make_combinatorial_hashes pts' pfs' ot' ofr' dt' df' := by
  subst h1 h2 h3 h4 h5 h6 h7 h8 h9 h10
  exact ⟨rfl, rfl⟩

/-- Witness for C9: two identical concrete runs agree. -/
theorem extraction_and_hashing_deterministic_witness :
    make_peaks_constellation [0] [10] [[5]] 1 =
      make_peaks_constellation [0] [10] [[5]] 1 ∧
    make_combinatorial_hashes [1, 3] [1000, 1500] (1/2) 0 5 1000 =
      make_combinatorial_hashes [1, 3] [1000, 1500] (1/2) 0 5 1000 :=
  extraction_and_hashing_deterministic [0] [10] [[5]] 1 [0] [10] [[5]] 1
    [1, 3] [1000, 1500] (1/2) 0 5 1000 [1, 3] [1000, 1500] (1/2) 0 5 1000
    rfl rfl rfl rfl rfl rfl rfl rfl rfl rfl

/-- C10: `make_fingerprint` passes seven positional arguments to the
six-parameter `make_combinatorial_hashes`, so every call raises
`TypeError`; consequently track ingestion
(`fingerprint_track_and_add_to_database`) and querying
(`fingerprint_recording`) can never complete successfully. -/
theorem make_fingerprint_raises_type_error
    (times frequencies : List ℚ) (amps : List (List ℚ))
    (amp_thresh offset_time offset_freq delta_time delta_freq fan_out_arg : ℚ)
    (track_id : String) (db : Db ℚ) :
    make_fingerprint times frequencies amps amp_thresh offset_time offset_freq
        delta_time delta_freq fan_out_arg = .error "TypeError" ∧
    fingerprint_track_and_add_to_database times frequencies amps track_id db =
      .error "TypeError" ∧
    fingerprint_recording times frequencies amps = .error "TypeError" := by
  refine ⟨?_, ?_, ?_⟩
  · simp [make_fingerprint, callPositional]
  · simp [fingerprint_track_and_add_to_database, make_fingerprint, callPositional]
  · simp [fingerprint_recording, make_fingerprint, callPositional]

end Shazir
